import Mathlib

/-!
Verification of the `ftsfr/nyu_call_report` pipeline.

Part 1 embeds the task declarations of `dodo.py` and, since the incremental
task engine that interprets them is not part of the repository's sources,
a model of that engine built from the specification (each such definition is
marked `Modelled from the spec:`).

Part 2 embeds the quartile-assignment and aggregation logic of
`src/create_aggregated_leverage.py` over exact rationals.
-/

namespace NyuCallReport

/-! ## Artifact registry and task data model -/

/-- Modelled from the spec: the artifact registry, a map from artifact id to
its `last_modified` timestamp; an artifact absent from the list has never been
produced.  Newer bindings are prepended, so the first binding wins. -/
abbrev FS := List (String × Nat)

/-- Modelled from the spec: `last_modified` of an artifact, `none` if the
artifact does not exist. -/
def mtime (fs : FS) (a : String) : Option Nat :=
  (fs.find? (fun p => p.1 == a)).map (fun p => p.2)

/-- Modelled from the spec: the `clean` field of a task: absent, `True`
(default removal of targets), or a custom list of clean actions.  Clean
actions are opaque commands; in this pipeline every custom list is empty,
so running a custom list changes no artifact. -/
inductive CleanSpec where
  | omitted : CleanSpec
  | always : CleanSpec
  | custom (actions : List String) : CleanSpec
deriving DecidableEq

/-- A task as declared in `dodo.py`: name, opaque actions, declared target
artifacts, file dependencies, optional task dependencies and clean spec. -/
structure Task where
  name : String
  actions : List String
  targets : List String
  file_dep : List String
  task_dep : List String := []
  clean : CleanSpec := .omitted
deriving DecidableEq

/-! ## The concrete task set of `dodo.py` -/

def DATA_DIR : String := "_data"

def OUTPUT_DIR : String := "_output"

/-- `jupyter_execute_notebook` of `dodo.py`. -/
def jupyter_execute_notebook (notebook_path : String) : String :=
  "jupyter nbconvert --execute --to notebook --ClearMetadataPreprocessor.enabled=True --inplace "
    ++ notebook_path

/-- `jupyter_to_html` of `dodo.py` (at its default output dir). -/
def jupyter_to_html (notebook_path : String) : String :=
  "jupyter nbconvert --to html --output-dir=" ++ OUTPUT_DIR ++ " " ++ notebook_path

/-- `mv` of `dodo.py` on a nix system. -/
def mv (from_path to_path : String) : String :=
  "mv " ++ from_path ++ " " ++ to_path

/-- `task_config` of `dodo.py`: creates the `_data` and `_output`
directories; they are its targets and it has no file dependency. -/
def task_config : Task where
  name := "config"
  actions := ["create_dirs"]
  targets := [DATA_DIR, OUTPUT_DIR]
  file_dep := []

/-- `task_pull` of `dodo.py`. -/
def task_pull : Task where
  name := "pull"
  actions := ["python ./src/pull_nyu_call_report.py"]
  targets := [DATA_DIR ++ "/nyu_call_report.parquet"]
  file_dep := ["./src/pull_nyu_call_report.py"]
  clean := .custom []

/-- `task_format` of `dodo.py`. -/
def task_format : Task where
  name := "format"
  actions := ["python ./src/create_ftsfr_datasets.py"]
  targets := [DATA_DIR ++ "/ftsfr_nyu_call_report_leverage.parquet",
    DATA_DIR ++ "/ftsfr_nyu_call_report_holding_company_leverage.parquet",
    DATA_DIR ++ "/ftsfr_nyu_call_report_cash_liquidity.parquet",
    DATA_DIR ++ "/ftsfr_nyu_call_report_holding_company_cash_liquidity.parquet"]
  file_dep := ["./src/create_ftsfr_datasets.py",
    DATA_DIR ++ "/nyu_call_report.parquet"]
  clean := .custom []

/-- `task_aggregate` of `dodo.py`. -/
def task_aggregate : Task where
  name := "aggregate"
  actions := ["python ./src/create_aggregated_leverage.py"]
  targets := [DATA_DIR ++ "/ftsfr_nyu_call_report_leverage_ew_quartile.parquet",
    DATA_DIR ++ "/ftsfr_nyu_call_report_leverage_vw_quartile.parquet"]
  file_dep := ["./src/create_aggregated_leverage.py",
    DATA_DIR ++ "/nyu_call_report.parquet"]
  clean := .custom []

/-- `task_generate_charts` of `dodo.py`. -/
def task_generate_charts : Task where
  name := "generate_charts"
  actions := ["python ./src/generate_chart.py"]
  targets := [OUTPUT_DIR ++ "/bank_leverage_ew_quartile.html",
    OUTPUT_DIR ++ "/bank_leverage_vw_quartile.html"]
  file_dep := ["./src/generate_chart.py",
    DATA_DIR ++ "/ftsfr_nyu_call_report_leverage_ew_quartile.parquet",
    DATA_DIR ++ "/ftsfr_nyu_call_report_leverage_vw_quartile.parquet"]
  clean := .custom []

/-- One entry of the `notebook_tasks` table of `dodo.py`. -/
structure NotebookEntry where
  name : String
  path : String
  file_dep : List String
  targets : List String
deriving DecidableEq

/-- The single entry of the `notebook_tasks` table of `dodo.py`. -/
def summary_entry : NotebookEntry where
  name := "summary_nyu_call_report_ipynb"
  path := "./src/summary_nyu_call_report_ipynb.py"
  file_dep := [DATA_DIR ++ "/ftsfr_nyu_call_report_leverage.parquet"]
  targets := []

/-- The `notebook_tasks` table of `dodo.py`. -/
def notebook_tasks : List NotebookEntry := [summary_entry]

/-- `notebook_files` of `dodo.py`: the source path of each notebook entry. -/
def notebook_files : List String := notebook_tasks.map (fun e => e.path)

/-- `pyfile_path.with_suffix(".ipynb")` for the `.py` paths used here. -/
def withSuffixIpynb (p : String) : String := p.dropRight 3 ++ ".ipynb"

/-- The body of the `task_run_notebooks` generator of `dodo.py` for one
entry of `notebook_tasks`: the concrete sub-task it yields. -/
def expandNotebook (e : NotebookEntry) : Task :=
  let notebook_path := withSuffixIpynb e.path
  { name := "run_notebooks:" ++ e.name
    actions := ["jupytext --to notebook --output " ++ notebook_path ++ " " ++ e.path,
      jupyter_execute_notebook notebook_path,
      jupyter_to_html notebook_path,
      mv notebook_path OUTPUT_DIR]
    file_dep := e.path :: e.file_dep
    targets := (OUTPUT_DIR ++ "/" ++ e.name ++ ".html") :: e.targets
    clean := .always }

/-- `task_run_notebooks` of `dodo.py`: the generator expands into one
concrete task per entry of `notebook_tasks`. -/
def task_run_notebooks : List Task := notebook_tasks.map expandNotebook

/-- `task_generate_pipeline_site` of `dodo.py`. -/
def task_generate_pipeline_site : Task where
  name := "generate_pipeline_site"
  actions := ["chartbook build -f"]
  targets := ["docs/index.html"]
  file_dep := "chartbook.toml" :: notebook_files ++
    [OUTPUT_DIR ++ "/bank_leverage_ew_quartile.html",
     OUTPUT_DIR ++ "/bank_leverage_vw_quartile.html"]

/-- The fully expanded task set of `dodo.py`, in declaration order. -/
def pipeline : List Task :=
  [task_config, task_pull, task_format, task_aggregate, task_generate_charts]
    ++ task_run_notebooks ++ [task_generate_pipeline_site]

/-! ## The engine, modelled from the spec -/

/-- Modelled from the spec: the earliest (minimum) `last_modified` among a
list of target artifacts; `none` when the list is empty or some target does
not exist. -/
def earliestTarget (fs : FS) : List String → Option Nat
  | [] => none
  | [a] => mtime fs a
  | a :: b :: rest =>
    match mtime fs a, earliestTarget fs (b :: rest) with
    | some m, some e => some (min m e)
    | _, _ => none

/-- Modelled from the spec: the filesystem part of the staleness test —
every declared target exists (a task with no targets is unconditionally
stale), and every file dependency exists with `last_modified` no later than
the earliest target's. -/
def freshCore (fs : FS) (t : Task) : Bool :=
  match earliestTarget fs t.targets with
  | none => false
  | some e => t.file_dep.all (fun d =>
      match mtime fs d with
      | some md => decide (md ≤ e)
      | none => false)

/-- Modelled from the spec: the staleness evaluator.  A task is fresh
(skippable) iff no upstream task was re-run in this invocation and the
filesystem part of the test holds. -/
def fresh (fs : FS) (upstreamRan : Bool) (t : Task) : Bool :=
  !upstreamRan && freshCore fs t

/-- Modelled from the spec: whether some upstream task of `t` (an owner of
one of its file dependencies, or a task named in its `task_dep`) was executed
during this invocation (`ran` lists the executed task names). -/
def ownerRan (all : List Task) (ran : List String) (t : Task) : Bool :=
  t.file_dep.any (fun d =>
      all.any (fun u => ran.contains u.name && u.targets.contains d))
    || t.task_dep.any (fun n => ran.contains n)

/-- Modelled from the spec: process-scoped run state — the artifact registry,
a logical clock used as the current time, and the names of the tasks executed
so far in this invocation. -/
structure RunState where
  fs : FS
  clock : Nat
  ran : List String
deriving DecidableEq

/-- Modelled from the spec: a successful task's actions write all its
declared targets, stamped with the current clock. -/
def writeTargets (fs : FS) (c : Nat) (ts : List String) : FS :=
  ts.map (fun a => (a, c)) ++ fs

/-- Modelled from the spec: the scheduler evaluates staleness just before
running a task; a fresh task is skipped, a stale one has its actions run,
its targets written at the current clock, and is recorded as executed. -/
def runTask (all : List Task) (st : RunState) (t : Task) : RunState :=
  if fresh st.fs (ownerRan all st.ran t) t then st
  else { fs := writeTargets st.fs st.clock t.targets,
         clock := st.clock + 1,
         ran := st.ran ++ [t.name] }

/-- Modelled from the spec: the scheduler executes the task list in its
(topological, declaration) order. -/
def runTasks (all : List Task) (st : RunState) : RunState :=
  all.foldl (runTask all) st

/-- Modelled from the spec: whether two distinct tasks declare the same
target artifact (`AmbiguousTargetError`). -/
def hasAmbiguousTarget (ts : List Task) : Bool :=
  ts.any (fun u => ts.any (fun v =>
    u.name != v.name && u.targets.any (fun a => v.targets.contains a)))

/-- Modelled from the spec: whether some `task_dep` names a task absent from
the expanded set (`UnknownDependencyError`). -/
def hasUnknownTaskDep (ts : List Task) : Bool :=
  ts.any (fun v => v.task_dep.any (fun n => !(ts.any (fun u => u.name == n))))

/-- Modelled from the spec: the task-level edges of the dependency graph —
`(u, v)` when `v`'s `file_dep` contains a target of `u`, or `v`'s `task_dep`
names `u`. -/
def edgesOf (ts : List Task) : List (String × String) :=
  ts.flatMap (fun u =>
    (ts.filter (fun v => u.name != v.name &&
        (v.file_dep.any (fun d => u.targets.contains d) ||
          v.task_dep.contains u.name))).map (fun v => (u.name, v.name)))

/-- Modelled from the spec: the dependency graph builder — fails with
`UnknownDependencyError` or `AmbiguousTargetError`, otherwise returns the
task-level edges. -/
def buildGraph (ts : List Task) : Except String (List (String × String)) :=
  if hasUnknownTaskDep ts then .error "UnknownDependencyError"
  else if hasAmbiguousTarget ts then .error "AmbiguousTargetError"
  else .ok (edgesOf ts)

/-- Whether some remaining task has an edge into `t`. -/
def hasEdgeInto (rem : List Task) (t : Task) : Bool :=
  rem.any (fun u => u.name != t.name &&
    (t.file_dep.any (fun d => u.targets.contains d) || t.task_dep.contains u.name))

/-- Modelled from the spec: cycle detection — repeatedly discharge a task no
remaining task points into; the graph is acyclic iff all tasks are
discharged. -/
def kahnStep : Nat → List Task → Bool
  | 0, rem => rem.isEmpty
  | n + 1, rem =>
    match rem.find? (fun t => !(hasEdgeInto rem t)) with
    | some t => kahnStep n (rem.filter (fun u => u.name != t.name))
    | none => rem.isEmpty

/-- Modelled from the spec: whether the dependency graph of a task set is
acyclic. -/
def acyclicB (ts : List Task) : Bool := kahnStep ts.length ts

/-- Modelled from the spec: the `run` command — builds the graph, runs the
mandatory cycle check, and only then executes; on a graph error or a cycle
it fails before any action executes. -/
def doitRun (ts : List Task) (st : RunState) : Except String RunState :=
  match buildGraph ts with
  | .error e => .error e
  | .ok _ =>
    if acyclicB ts then .ok (runTasks ts st)
    else .error "CyclicDependencyError"

/-- Modelled from the spec: the clean subsystem — with `clean = True` every
existing declared target is removed; with a custom action list those actions
run instead (opaque; in this pipeline every custom list is empty, removing
nothing); with no clean spec nothing is removed. -/
def cleanTask (fs : FS) (t : Task) : FS :=
  match t.clean with
  | .always => fs.filter (fun p => !(t.targets.contains p.1))
  | _ => fs

/-! ## Engine lemmas -/

theorem contains_iff (l : List String) (a : String) : l.contains a = true ↔ a ∈ l := by
  induction l with
  | nil => simp
  | cons x xs ih =>
    simp only [List.contains_cons, Bool.or_eq_true, beq_iff_eq, List.mem_cons, ih]

theorem writeTargets_cons (fs : FS) (c : Nat) (a : String) (ts : List String) :
    writeTargets fs c (a :: ts) = (a, c) :: writeTargets fs c ts := rfl

theorem mtime_cons (fs : FS) (p : String × Nat) (a : String) :
    mtime (p :: fs) a = if p.1 == a then some p.2 else mtime fs a := by
  by_cases h : (p.1 == a) = true
  · simp [mtime, List.find?_cons, h]
  · simp [mtime, List.find?_cons, h]

theorem mtime_writeTargets_mem (fs : FS) (c : Nat) :
    ∀ (ts : List String) (a : String), a ∈ ts →
      mtime (writeTargets fs c ts) a = some c
  | [], a, h => absurd h (List.not_mem_nil a)
  | x :: xs, a, h => by
    rw [writeTargets_cons, mtime_cons]
    by_cases hx : x = a
    · simp [hx]
    · have ha : a ∈ xs := by
        rcases List.mem_cons.1 h with h1 | h1
        · exact absurd h1.symm hx
        · exact h1
      have hb : ((x, c).1 == a) = false := beq_eq_false_iff_ne.2 hx
      rw [hb]
      simp only [if_false, Bool.false_eq_true]
      exact mtime_writeTargets_mem fs c xs a ha

theorem mtime_writeTargets_not_mem (fs : FS) (c : Nat) :
    ∀ (ts : List String) (a : String), a ∉ ts →
      mtime (writeTargets fs c ts) a = mtime fs a
  | [], _, _ => rfl
  | x :: xs, a, h => by
    rw [writeTargets_cons, mtime_cons]
    have hx : x ≠ a := fun hxa => h (hxa ▸ List.mem_cons_self x xs)
    have hb : ((x, c).1 == a) = false := beq_eq_false_iff_ne.2 hx
    rw [hb]
    simp only [if_false, Bool.false_eq_true]
    exact mtime_writeTargets_not_mem fs c xs a (fun ha => h (List.mem_cons_of_mem _ ha))

theorem mtime_isSome_writeTargets (fs : FS) (c : Nat) (ts : List String) (a : String)
    (h : (mtime fs a).isSome = true) :
    (mtime (writeTargets fs c ts) a).isSome = true := by
  by_cases hm : a ∈ ts
  · rw [mtime_writeTargets_mem fs c ts a hm]; rfl
  · rw [mtime_writeTargets_not_mem fs c ts a hm]; exact h

theorem mem_writeTargets (fs : FS) (c : Nat) (ts : List String) (p : String × Nat)
    (h : p ∈ writeTargets fs c ts) : p.2 = c ∨ p ∈ fs := by
  unfold writeTargets at h
  rcases List.mem_append.1 h with h1 | h1
  · left
    rcases List.mem_map.1 h1 with ⟨x, _, hx⟩
    rw [← hx]
  · right; exact h1

theorem mem_of_mtime_eq_some (fs : FS) (a : String) (m : Nat)
    (h : mtime fs a = some m) : ∃ p ∈ fs, p.2 = m := by
  unfold mtime at h
  cases hf : fs.find? (fun p => p.1 == a) with
  | none => rw [hf] at h; simp at h
  | some p =>
    rw [hf] at h
    simp only [Option.map] at h
    injection h with h2
    exact ⟨p, List.mem_of_find?_eq_some hf, h2⟩

theorem earliestTarget_congr (fs fs' : FS) :
    ∀ (ts : List String), (∀ a ∈ ts, mtime fs a = mtime fs' a) →
      earliestTarget fs ts = earliestTarget fs' ts
  | [], _ => rfl
  | [a], h => by
    simp only [earliestTarget]
    exact h a (by simp)
  | a :: b :: rest, h => by
    have hr := earliestTarget_congr fs fs' (b :: rest)
      (fun x hx => h x (List.mem_cons_of_mem _ hx))
    simp only [earliestTarget]
    rw [h a (List.mem_cons_self a _), hr]

theorem earliestTarget_const (fs : FS) (c : Nat) :
    ∀ (ts : List String), ts ≠ [] → (∀ a ∈ ts, mtime fs a = some c) →
      earliestTarget fs ts = some c
  | [], h, _ => absurd rfl h
  | [a], _, h2 => by
    simp only [earliestTarget]
    exact h2 a (by simp)
  | a :: b :: rest, _, h2 => by
    have hr := earliestTarget_const fs c (b :: rest) (by simp)
      (fun x hx => h2 x (List.mem_cons_of_mem _ hx))
    simp only [earliestTarget]
    rw [h2 a (List.mem_cons_self a _), hr]
    simp

theorem isSome_of_earliestTarget (fs : FS) :
    ∀ (ts : List String) (e : Nat), earliestTarget fs ts = some e →
      ∀ a ∈ ts, (mtime fs a).isSome = true
  | [], e, h => by simp [earliestTarget] at h
  | [a], e, h => by
    intro x hx
    rw [List.mem_singleton.1 hx]
    simp only [earliestTarget] at h
    rw [h]; rfl
  | a :: b :: rest, e, h => by
    intro x hx
    simp only [earliestTarget] at h
    cases hma : mtime fs a with
    | none => rw [hma] at h; simp at h
    | some m =>
      cases hr : earliestTarget fs (b :: rest) with
      | none => rw [hma, hr] at h; simp at h
      | some e' =>
        rcases List.mem_cons.1 hx with rfl | hx'
        · rw [hma]; rfl
        · exact isSome_of_earliestTarget fs (b :: rest) e' hr x hx'

theorem freshCore_eq_true_iff (fs : FS) (t : Task) :
    freshCore fs t = true ↔
      ∃ e, earliestTarget fs t.targets = some e ∧
        ∀ d ∈ t.file_dep, ∃ md, mtime fs d = some md ∧ md ≤ e := by
  unfold freshCore
  cases h : earliestTarget fs t.targets with
  | none => simp
  | some e =>
    simp only [List.all_eq_true, Option.some.injEq]
    constructor
    · intro hall
      refine ⟨e, rfl, fun d hd => ?_⟩
      have hx := hall d hd
      cases hmd : mtime fs d with
      | none => rw [hmd] at hx; simp at hx
      | some md =>
        rw [hmd] at hx
        exact ⟨md, rfl, by simpa using hx⟩
    · rintro ⟨e', he', hdep⟩ d hd
      obtain ⟨md, hmd, hle⟩ := hdep d hd
      rw [hmd]
      rw [← he'] at hle
      simpa using hle

theorem freshCore_congr (fs fs' : FS) (t : Task)
    (h : ∀ a, a ∈ t.targets ∨ a ∈ t.file_dep → mtime fs a = mtime fs' a) :
    freshCore fs t = freshCore fs' t := by
  rw [Bool.eq_iff_iff, freshCore_eq_true_iff, freshCore_eq_true_iff,
    earliestTarget_congr fs fs' t.targets (fun a ha => h a (Or.inl ha))]
  constructor
  · rintro ⟨e, he, hd⟩
    exact ⟨e, he, fun d hdd => by
      rw [← h d (Or.inr hdd)]
      exact hd d hdd⟩
  · rintro ⟨e, he, hd⟩
    exact ⟨e, he, fun d hdd => by
      rw [h d (Or.inr hdd)]
      exact hd d hdd⟩

theorem ownerRan_nil (all : List Task) (t : Task) : ownerRan all [] t = false := by
  simp [ownerRan]

theorem runTask_of_fresh (all : List Task) (st : RunState) (t : Task)
    (h : fresh st.fs (ownerRan all st.ran t) t = true) : runTask all st t = st := by
  simp [runTask, h]

/-! ## Structural conditions on a task list -/

/-- Structural soundness of one task: it has at least one declared target
and none of its file dependencies is among its own targets. -/
def selfOK (t : Task) : Bool :=
  !t.targets.isEmpty && t.file_dep.all (fun d => !t.targets.contains d)

/-- `v` may validly appear after `u`: `v` targets neither a target nor a
file dependency of `u`. -/
def laterOK (u v : Task) : Bool :=
  v.targets.all (fun a => !u.targets.contains a && !u.file_dep.contains a)

/-- The task list is topologically ordered with pairwise disjoint targets:
no task targets an artifact that an earlier task targets or depends on. -/
def orderedOK : List Task → Bool
  | [] => true
  | u :: rest => rest.all (fun v => laterOK u v) && orderedOK rest

/-- Every file dependency of every task, scanned in list order, is either
in the accumulated availability list (targets of earlier tasks) or already
present in the filesystem. -/
def depsSeqB (fs : FS) : List Task → List String → Bool
  | [], _ => true
  | v :: rest, avail =>
    v.file_dep.all (fun d => avail.contains d || (mtime fs d).isSome) &&
      depsSeqB fs rest (avail ++ v.targets)

theorem depsSeqB_mono (fs fs' : FS)
    (hm : ∀ d, (mtime fs d).isSome = true → (mtime fs' d).isSome = true) :
    ∀ (P : List Task) (A A' : List String),
      (∀ d, d ∈ A → d ∈ A' ∨ (mtime fs' d).isSome = true) →
      depsSeqB fs P A = true → depsSeqB fs' P A' = true
  | [], _, _, _, _ => rfl
  | v :: rest, A, A', hA, h => by
    simp only [depsSeqB, Bool.and_eq_true, List.all_eq_true] at h ⊢
    obtain ⟨h1, h2⟩ := h
    refine ⟨?_, ?_⟩
    · intro d hd
      have hx := h1 d hd
      simp only [Bool.or_eq_true] at hx ⊢
      rcases hx with hc | hs
      · rcases hA d ((contains_iff A d).1 hc) with hmem | hpres
        · exact Or.inl ((contains_iff A' d).2 hmem)
        · exact Or.inr hpres
      · exact Or.inr (hm d hs)
    · refine depsSeqB_mono fs fs' hm rest (A ++ v.targets) (A' ++ v.targets) ?_ h2
      intro d hd
      rcases List.mem_append.1 hd with hdA | hdt
      · rcases hA d hdA with hmem | hpres
        · exact Or.inl (List.mem_append.2 (Or.inl hmem))
        · exact Or.inr hpres
      · exact Or.inl (List.mem_append.2 (Or.inr hdt))

/-- If every task of the list is filesystem-fresh and nothing has been
executed yet this invocation, the scheduler skips every task and the run
state is unchanged. -/
theorem runTasks_skip_all (all : List Task) :
    ∀ (P : List Task) (st : RunState), st.ran = [] →
      (∀ u ∈ P, freshCore st.fs u = true) →
      P.foldl (runTask all) st = st
  | [], _, _, _ => rfl
  | v :: rest, st, hran, hfresh => by
    have hown : ownerRan all st.ran v = false := by
      rw [hran]; exact ownerRan_nil all v
    have hv : runTask all st v = st := by
      apply runTask_of_fresh
      rw [hown]
      simp [fresh, hfresh v (List.mem_cons_self v rest)]
    rw [List.foldl_cons, hv]
    exact runTasks_skip_all all rest st hran (fun u hu => hfresh u (List.mem_cons_of_mem _ hu))

/-- Processing a structurally well-ordered task list whose file dependencies
are sequentially available (each one either already on disk or targeted by an
earlier task) keeps every timestamp below the clock, leaves untargeted
artifacts untouched, preserves artifact existence, and leaves every processed
task filesystem-fresh. -/
theorem runTasks_establishes (all : List Task) :
    ∀ (P : List Task) (st : RunState),
      (∀ p ∈ st.fs, p.2 < st.clock) →
      depsSeqB st.fs P [] = true →
      orderedOK P = true →
      P.all selfOK = true →
      (∀ p ∈ (P.foldl (runTask all) st).fs, p.2 < (P.foldl (runTask all) st).clock) ∧
      (∀ a, (∀ u ∈ P, a ∉ u.targets) →
        mtime (P.foldl (runTask all) st).fs a = mtime st.fs a) ∧
      (∀ d, (mtime st.fs d).isSome = true →
        (mtime (P.foldl (runTask all) st).fs d).isSome = true) ∧
      (∀ u ∈ P, freshCore (P.foldl (runTask all) st).fs u = true) := by
  intro P
  induction P with
  | nil =>
    intro st hclock _ _ _
    exact ⟨hclock, fun a _ => rfl, fun d hd => hd, fun u hu => absurd hu (List.not_mem_nil u)⟩
  | cons v rest ih =>
    intro st hclock hdeps hord hself
    simp only [depsSeqB, Bool.and_eq_true, List.all_eq_true, List.nil_append] at hdeps
    obtain ⟨hdepv, hdeprest⟩ := hdeps
    have hdepv' : ∀ d ∈ v.file_dep, (mtime st.fs d).isSome = true := by
      intro d hd
      have hx := hdepv d hd
      simpa using hx
    simp only [orderedOK, Bool.and_eq_true, List.all_eq_true] at hord
    obtain ⟨hlater, hordrest⟩ := hord
    simp only [List.all_cons, Bool.and_eq_true] at hself
    obtain ⟨hselfv, hselfrest⟩ := hself
    have htne : v.targets ≠ [] := by
      intro hempty
      simp only [selfOK, Bool.and_eq_true] at hselfv
      have h1 := hselfv.1
      rw [hempty] at h1
      simp at h1
    have hdnott : ∀ d ∈ v.file_dep, d ∉ v.targets := by
      intro d hd hmem
      simp only [selfOK, Bool.and_eq_true, List.all_eq_true] at hselfv
      have h2 := hselfv.2 d hd
      rw [(contains_iff _ _).2 hmem] at h2
      simp at h2
    set st1 := runTask all st v with hst1
    have key : (∀ p ∈ st1.fs, p.2 < st1.clock) ∧
        (∀ d, (mtime st.fs d).isSome = true → (mtime st1.fs d).isSome = true) ∧
        (∀ a, a ∉ v.targets → mtime st1.fs a = mtime st.fs a) ∧
        (∀ a ∈ v.targets, (mtime st1.fs a).isSome = true) ∧
        freshCore st1.fs v = true := by
      by_cases hf : fresh st.fs (ownerRan all st.ran v) v = true
      · have hcore : freshCore st.fs v = true := by
          have hx := hf
          simp only [fresh, Bool.and_eq_true] at hx
          exact hx.2
        have hst : st1 = st := runTask_of_fresh all st v hf
        rw [hst]
        refine ⟨hclock, fun d hd => hd, fun a _ => rfl, ?_, hcore⟩
        obtain ⟨e, he, _⟩ := (freshCore_eq_true_iff st.fs v).1 hcore
        exact fun a ha => isSome_of_earliestTarget st.fs v.targets e he a ha
      · rw [Bool.not_eq_true] at hf
        have hst : st1 =
            RunState.mk (writeTargets st.fs st.clock v.targets) (st.clock + 1) (st.ran ++ [v.name]) := by
          rw [hst1]
          simp [runTask, hf]
        rw [hst]
        refine ⟨?_, ?_, ?_, ?_, ?_⟩
        · intro p hp
          simp only at hp ⊢
          rcases mem_writeTargets _ _ _ p hp with h1 | h1
          · omega
          · have := hclock p h1
            omega
        · intro d hd
          exact mtime_isSome_writeTargets _ _ _ _ hd
        · intro a ha
          exact mtime_writeTargets_not_mem _ _ _ _ ha
        · intro a ha
          simp only
          rw [mtime_writeTargets_mem _ _ _ _ ha]
          rfl
        · apply (freshCore_eq_true_iff _ _).2
          refine ⟨st.clock, ?_, ?_⟩
          · exact earliestTarget_const _ _ _ htne
              (fun a ha => mtime_writeTargets_mem _ _ _ _ ha)
          · intro d hd
            simp only
            rw [mtime_writeTargets_not_mem _ _ _ _ (hdnott d hd)]
            obtain ⟨md, hmd⟩ := Option.isSome_iff_exists.1 (hdepv' d hd)
            refine ⟨md, hmd, ?_⟩
            obtain ⟨p, hp, hpv⟩ := mem_of_mtime_eq_some _ _ _ hmd
            have := hclock p hp
            omega
    obtain ⟨k1, k2, k3, k4, k5⟩ := key
    have hdeps1 : depsSeqB st1.fs rest [] = true := by
      apply depsSeqB_mono st.fs st1.fs k2 rest v.targets []
      · intro d hd
        exact Or.inr (k4 d hd)
      · exact hdeprest
    obtain ⟨i1, i2, i3, i4⟩ := ih st1 k1 hdeps1 hordrest hselfrest
    have hfold : (v :: rest).foldl (runTask all) st = rest.foldl (runTask all) st1 := by
      rw [List.foldl_cons]
    rw [hfold]
    refine ⟨i1, ?_, ?_, ?_⟩
    · intro a ha
      have hav : a ∉ v.targets := ha v (List.mem_cons_self v rest)
      have harest : ∀ u ∈ rest, a ∉ u.targets :=
        fun u hu => ha u (List.mem_cons_of_mem _ hu)
      rw [i2 a harest]
      exact k3 a hav
    · intro d hd
      exact i3 d (k2 d hd)
    · intro u hu
      rcases List.mem_cons.1 hu with rfl | hu'
      · have hcong : freshCore (rest.foldl (runTask all) st1).fs u = freshCore st1.fs u := by
          apply freshCore_congr
          intro a ha
          apply i2
          intro u' hu'
          have hl := hlater u' hu'
          simp only [laterOK, List.all_eq_true] at hl
          intro hmem
          have hc := hl a hmem
          simp only [Bool.and_eq_true, Bool.not_eq_true'] at hc
          rcases ha with hat | had
          · have hx := (contains_iff _ _).2 hat
            rw [hc.1] at hx
            exact Bool.false_ne_true hx
          · have hx := (contains_iff _ _).2 had
            rw [hc.2] at hx
            exact Bool.false_ne_true hx
        rw [hcong]
        exact k5
      · exact i4 u hu'

/-! ## Concrete run scenarios -/

/-- The concrete sub-task the `task_run_notebooks` generator yields. -/
def summaryNotebookTask : Task := expandNotebook summary_entry

/-- A canonical initial filesystem: every external input of the pipeline
(the five source scripts and `chartbook.toml`) exists at time 0 and no
task output exists yet. -/
def initialFS : FS :=
  [("./src/pull_nyu_call_report.py", 0),
   ("./src/create_ftsfr_datasets.py", 0),
   ("./src/create_aggregated_leverage.py", 0),
   ("./src/generate_chart.py", 0),
   ("./src/summary_nyu_call_report_ipynb.py", 0),
   ("chartbook.toml", 0)]

/-- The state after a first `run` of the whole pipeline from `initialFS`. -/
def firstRun : RunState := runTasks pipeline { fs := initialFS, clock := 1, ran := [] }

/-- A filesystem in which `task_format`'s targets all exist (earliest at
time 3) but `task_pull`'s target is newer (time 9): format must be stale. -/
def fsStale : FS :=
  [(DATA_DIR ++ "/ftsfr_nyu_call_report_leverage.parquet", 3),
   (DATA_DIR ++ "/ftsfr_nyu_call_report_holding_company_leverage.parquet", 3),
   (DATA_DIR ++ "/ftsfr_nyu_call_report_cash_liquidity.parquet", 4),
   (DATA_DIR ++ "/ftsfr_nyu_call_report_holding_company_cash_liquidity.parquet", 5),
   (DATA_DIR ++ "/nyu_call_report.parquet", 9),
   ("./src/create_ftsfr_datasets.py", 0)]

/-- A run state in which `task_format`'s targets all exist (earliest at
time 3), both of its file dependencies are older, and nothing has been
executed this invocation: format must be fresh and skipped. -/
def stFresh : RunState where
  fs := [(DATA_DIR ++ "/ftsfr_nyu_call_report_leverage.parquet", 3),
    (DATA_DIR ++ "/ftsfr_nyu_call_report_holding_company_leverage.parquet", 3),
    (DATA_DIR ++ "/ftsfr_nyu_call_report_cash_liquidity.parquet", 3),
    (DATA_DIR ++ "/ftsfr_nyu_call_report_holding_company_cash_liquidity.parquet", 3),
    (DATA_DIR ++ "/nyu_call_report.parquet", 2),
    ("./src/create_ftsfr_datasets.py", 0)]
  clock := 10
  ran := []

/-! ## C1 -/

/-- C1: staleness correctness for the pair `task_pull` → `task_format`
(`task_pull` targets `_data/nyu_call_report.parquet`, which `task_format`
declares in its `file_dep`).  If pull's target is newer than format's
earliest target, format is stale; if every target of format exists and all
of its file dependencies are strictly older than the earliest target and no
upstream task was re-run this invocation, format is fresh and the scheduler
skips it, leaving the run state unchanged. -/
theorem c1_staleness_pull_format :
    (∀ (fs : FS) (b : Bool) (e m : Nat),
        earliestTarget fs task_format.targets = some e →
        mtime fs (DATA_DIR ++ "/nyu_call_report.parquet") = some m →
        e < m →
        fresh fs b task_format = false) ∧
    (∀ (all : List Task) (st : RunState) (e : Nat),
        earliestTarget st.fs task_format.targets = some e →
        (∀ d ∈ task_format.file_dep, ∃ md, mtime st.fs d = some md ∧ md < e) →
        ownerRan all st.ran task_format = false →
        fresh st.fs false task_format = true ∧ runTask all st task_format = st) := by
  constructor
  · intro fs b e m he hm hlt
    have hcore : freshCore fs task_format = false := by
      cases hfc : freshCore fs task_format
      · rfl
      · exfalso
        obtain ⟨e', he', hdep⟩ := (freshCore_eq_true_iff fs task_format).1 hfc
        rw [he] at he'
        injection he' with hee
        obtain ⟨md, hmd, hle⟩ := hdep (DATA_DIR ++ "/nyu_call_report.parquet") (by decide)
        rw [hm] at hmd
        injection hmd with hmm
        omega
    simp [fresh, hcore]
  · intro all st e he hdeps howner
    have hcore : freshCore st.fs task_format = true :=
      (freshCore_eq_true_iff st.fs task_format).2
        ⟨e, he, fun d hd => by
          obtain ⟨md, hmd, hlt⟩ := hdeps d hd
          exact ⟨md, hmd, le_of_lt hlt⟩⟩
    refine ⟨by simp [fresh, hcore], ?_⟩
    apply runTask_of_fresh
    rw [howner]
    simp [fresh, hcore]

/-- Witness for C1 at concrete inputs: in `fsStale` (pull's target at time 9,
format's earliest target at time 3) format is stale, and in `stFresh` format
is fresh and skipped. -/
theorem c1_witness :
    fresh fsStale true task_format = false ∧
    (fresh stFresh.fs false task_format = true ∧ runTask [] stFresh task_format = stFresh) := by
  constructor
  · exact c1_staleness_pull_format.1 fsStale true 3 9 (by decide) (by decide) (by decide)
  · refine c1_staleness_pull_format.2 [] stFresh 3 (by decide) ?_ (by decide)
    intro d hd
    have hd' : d = "./src/create_ftsfr_datasets.py" ∨
        d = DATA_DIR ++ "/nyu_call_report.parquet" := by
      simpa [task_format] using hd
    rcases hd' with rfl | rfl
    · exact ⟨0, by decide, by decide⟩
    · exact ⟨2, by decide, by decide⟩

/-! ## C2 -/

/-- C2 counterexample: the claim asserts that after `run` followed by
`clean <task>` the task's declared targets no longer exist, for every task
of the pipeline.  For `task_pull`, whose `clean` is the custom empty action
list `clean: []`, cleaning runs those (zero) actions instead of the default
removal: the filesystem is unchanged, pull's declared target still exists,
and the subsequent `run` re-executes no task at all. -/
theorem c2_counterexample :
    task_pull.clean = CleanSpec.custom [] ∧
    cleanTask firstRun.fs task_pull = firstRun.fs ∧
    ¬ (mtime (cleanTask firstRun.fs task_pull)
        (DATA_DIR ++ "/nyu_call_report.parquet") = none) ∧
    mtime (cleanTask firstRun.fs task_pull) (DATA_DIR ++ "/nyu_call_report.parquet") = some 2 ∧
    (runTasks pipeline
      { fs := cleanTask firstRun.fs task_pull, clock := firstRun.clock, ran := [] }).ran = [] := by
  decide

set_option maxRecDepth 10000 in
/-- C2 (amended): after `run`, for the `run_notebooks` sub-task — whose
`clean` is `True` — `clean` removes its declared target and the subsequent
`run` re-executes exactly that task while every other (fresh) task is
skipped; for the dataset tasks declaring the custom empty clean action list
`clean: []`, those (zero) actions run instead of the default removal, so the
targets persist and the subsequent `run` skips every task. -/
theorem c2_clean_semantics :
    summaryNotebookTask.clean = CleanSpec.always ∧
    summaryNotebookTask.targets = [OUTPUT_DIR ++ "/summary_nyu_call_report_ipynb.html"] ∧
    mtime (cleanTask firstRun.fs summaryNotebookTask)
      (OUTPUT_DIR ++ "/summary_nyu_call_report_ipynb.html") = none ∧
    (runTasks pipeline
      { fs := cleanTask firstRun.fs summaryNotebookTask,
        clock := firstRun.clock, ran := [] }).ran
      = ["run_notebooks:summary_nyu_call_report_ipynb"] ∧
    task_pull.clean = CleanSpec.custom [] ∧
    cleanTask firstRun.fs task_pull = firstRun.fs ∧
    (runTasks pipeline
      { fs := cleanTask firstRun.fs task_pull, clock := firstRun.clock, ran := [] }).ran = [] := by
  decide

/-! ## C3 -/

/-- C3: the `task_run_notebooks` generator expands into exactly one concrete
task per entry of `notebook_tasks`, expansion is idempotent (expanding the
same table again yields the same tasks), each task is named
`run_notebooks:<entry>` — here `run_notebooks:summary_nyu_call_report_ipynb`
— and each expanded task's staleness verdict depends only on the state of
its own targets and file dependencies. -/
theorem c3_generator_expansion :
    task_run_notebooks = notebook_tasks.map expandNotebook ∧
    notebook_tasks.map expandNotebook = notebook_tasks.map expandNotebook ∧
    task_run_notebooks.length = notebook_tasks.length ∧
    task_run_notebooks.map (fun t => t.name) =
      notebook_tasks.map (fun e => "run_notebooks:" ++ e.name) ∧
    task_run_notebooks.map (fun t => t.name) =
      ["run_notebooks:summary_nyu_call_report_ipynb"] ∧
    (∀ t ∈ task_run_notebooks, ∀ (fs fs' : FS) (b : Bool),
      (∀ a, a ∈ t.targets ∨ a ∈ t.file_dep → mtime fs a = mtime fs' a) →
      fresh fs b t = fresh fs' b t) := by
  refine ⟨rfl, rfl, rfl, by decide, by decide, ?_⟩
  intro t _ fs fs' b h
  unfold fresh
  rw [freshCore_congr fs fs' t h]

/-- Witness for C3 at a concrete input: the congruence applied to the
expanded notebook task with two identical filesystems. -/
theorem c3_witness :
    fresh [] true summaryNotebookTask = fresh [] true summaryNotebookTask :=
  c3_generator_expansion.2.2.2.2.2 summaryNotebookTask (by decide) [] [] true
    (fun _ _ => rfl)

/-! ## C4 -/

/-- C4: for the task set declared in `dodo.py`, if every external file
dependency is available when the first `run` starts (`depsSeqB`) and the
clock is ahead of every recorded timestamp, then a second `run` with no
filesystem changes in between executes zero actions: its executed-task list
stays empty, and filesystem and clock are returned unchanged — every task,
including `task_config`, resolves to skipped. -/
theorem c4_second_run_skips_all (fs0 : FS) (c0 c1 : Nat)
    (hclock : ∀ p ∈ fs0, p.2 < c0)
    (hdeps : depsSeqB fs0 pipeline [] = true) :
    runTasks pipeline
        { fs := (runTasks pipeline { fs := fs0, clock := c0, ran := [] }).fs,
          clock := c1, ran := [] } =
      { fs := (runTasks pipeline { fs := fs0, clock := c0, ran := [] }).fs,
        clock := c1, ran := [] } := by
  have hord : orderedOK pipeline = true := by decide
  have hself : pipeline.all selfOK = true := by decide
  obtain ⟨_, _, _, hfresh⟩ :=
    runTasks_establishes pipeline pipeline { fs := fs0, clock := c0, ran := [] }
      hclock hdeps hord hself
  exact runTasks_skip_all pipeline pipeline _ rfl hfresh

/-- Witness for C4 at a concrete input: starting from `initialFS` at clock 1,
the second `run` leaves the state of the first run untouched. -/
theorem c4_witness :
    runTasks pipeline { fs := firstRun.fs, clock := firstRun.clock, ran := [] } =
      { fs := firstRun.fs, clock := firstRun.clock, ran := [] } :=
  c4_second_run_skips_all initialFS 1 firstRun.clock (by decide) (by decide)

/-! ## C5, C6, C7 -/

/-- C5 counterexample: the claim says the site task's `file_dep` contains the
executed-notebook HTML produced by each `run_notebooks` sub-task, but the
HTML target of the `run_notebooks:summary_nyu_call_report_ipynb` sub-task is
not among the declared file dependencies of `task_generate_pipeline_site`. -/
theorem c5_counterexample :
    ¬ ((OUTPUT_DIR ++ "/summary_nyu_call_report_ipynb.html") ∈
        task_generate_pipeline_site.file_dep) ∧
    (OUTPUT_DIR ++ "/summary_nyu_call_report_ipynb.html") ∈ summaryNotebookTask.targets := by
  decide

/-- C5 (amended): the site-generation task's `file_dep` consists of
`chartbook.toml`, the notebook source files, and the two chart HTML
artifacts of `task_generate_charts` — not the executed-notebook HTML — and
its sole target is the published index artifact `docs/index.html`. -/
theorem c5_site_dependencies :
    task_generate_pipeline_site.file_dep =
      ["chartbook.toml", "./src/summary_nyu_call_report_ipynb.py",
       OUTPUT_DIR ++ "/bank_leverage_ew_quartile.html",
       OUTPUT_DIR ++ "/bank_leverage_vw_quartile.html"] ∧
    (∀ a ∈ task_generate_charts.targets, a ∈ task_generate_pipeline_site.file_dep) ∧
    task_generate_pipeline_site.targets = ["docs/index.html"] := by
  decide

/-- C6: across the fully expanded task set of `dodo.py` the declared target
sets are pairwise disjoint, so the graph builder succeeds and in particular
never fails with `AmbiguousTargetError` on this task set. -/
theorem c6_targets_pairwise_disjoint :
    List.Pairwise (fun u v : Task => ∀ a ∈ u.targets, a ∉ v.targets) pipeline ∧
    hasAmbiguousTarget pipeline = false ∧
    buildGraph pipeline = .ok (edgesOf pipeline) := by
  refine ⟨by decide, by decide, ?_⟩
  have h1 : hasUnknownTaskDep pipeline = false := by decide
  have h2 : hasAmbiguousTarget pipeline = false := by decide
  simp [buildGraph, h1, h2]

/-- C7: the dependency graph induced by the `dodo.py` declarations has
exactly the edges pull→format, pull→aggregate, format→run_notebooks,
aggregate→generate_charts and generate_charts→generate_pipeline_site; it is
acyclic, so `run` on this task set never fails with `CyclicDependencyError`;
and on any task set whatsoever, `run` executes no action unless the cycle
check on the whole resolved graph has completed successfully. -/
theorem c7_cycle_check :
    edgesOf pipeline =
      [("pull", "format"), ("pull", "aggregate"),
       ("format", "run_notebooks:summary_nyu_call_report_ipynb"),
       ("aggregate", "generate_charts"),
       ("generate_charts", "generate_pipeline_site")] ∧
    acyclicB pipeline = true ∧
    (∀ st : RunState, doitRun pipeline st = .ok (runTasks pipeline st)) ∧
    (∀ (ts : List Task) (st : RunState),
      (doitRun ts st).isOk = true → acyclicB ts = true) := by
  refine ⟨by decide, by decide, ?_, ?_⟩
  · intro st
    have h1 : hasUnknownTaskDep pipeline = false := by decide
    have h2 : hasAmbiguousTarget pipeline = false := by decide
    have h3 : acyclicB pipeline = true := by decide
    simp [doitRun, buildGraph, h1, h2, h3]
  · intro ts st h
    by_cases hc : acyclicB ts = true
    · exact hc
    · exfalso
      unfold doitRun at h
      cases hbg : buildGraph ts with
      | error e => rw [hbg] at h; simp [Except.isOk, Except.toBool] at h
      | ok g =>
        rw [hbg] at h
        simp only [hc, if_false, Bool.false_eq_true] at h
        simp [Except.isOk, Except.toBool] at h

/-- Witness for C7 at a concrete input: the empty task set's run is accepted,
so its graph is acyclic. -/
theorem c7_witness : acyclicB [] = true :=
  c7_cycle_check.2.2.2 [] { fs := [], clock := 0, ran := [] } (by decide)

/-! # Part 2: `src/create_aggregated_leverage.py` over exact rationals -/

/-- One row of the `df_initial` table: a bank and its initial assets. -/
structure InitRow where
  rssdid : Nat
  initial_assets : ℚ
deriving DecidableEq

/-- `df_initial.sort_values("initial_assets")`: ascending sort. -/
def sortByAssets (df : List InitRow) : List InitRow :=
  df.mergeSort (fun a b => decide (a.initial_assets ≤ b.initial_assets))

/-- Pandas `rank(method="first")`: one plus the number of strictly smaller
values plus the number of equal values appearing earlier in the column. -/
def rankFirst (xs : List ℚ) : List ℚ :=
  xs.enum.map (fun p =>
    ((xs.countP (fun y => decide (y < p.2)) +
      (xs.take p.1).countP (fun y => decide (y = p.2)) + 1 : Nat) : ℚ))

/-- The linear-interpolation quantile of a sorted list, as pandas computes
it: with position `h = p * (n - 1)`, interpolate between the values at
positions `floor h` and `floor h + 1`. -/
def quantileSorted (a : List ℚ) (p : ℚ) : ℚ :=
  let h : ℚ := p * ((a.length : ℚ) - 1)
  let i : Nat := ⌊h⌋.toNat
  let lo := a.getD i 0
  let hi := a.getD (i + 1) lo
  lo + (h - (i : ℚ)) * (hi - lo)

/-- Bin assignment of `pd.qcut(·, q=4, labels=[l1, l2, l3, l4])`: the first
bin is left-extended to include the lowest value, every bin is right-closed
at its quantile edge. -/
def qcut4Label (e1 e2 e3 : ℚ) (l1 l2 l3 l4 : String) (x : ℚ) : String :=
  if x ≤ e1 then l1 else if x ≤ e2 then l2 else if x ≤ e3 then l3 else l4

/-- `pd.qcut(xs, q=4, labels=[l1, l2, l3, l4])`: edges at the interpolated
quartiles of the data, then per-value bin assignment. -/
def qcut4 (l1 l2 l3 l4 : String) (xs : List ℚ) : List String :=
  let s := xs.mergeSort (fun a b => decide (a ≤ b))
  xs.map (qcut4Label (quantileSorted s (1/4)) (quantileSorted s (1/2))
    (quantileSorted s (3/4)) l1 l2 l3 l4)

/-- `assign_ew_quartiles` of `create_aggregated_leverage.py`: sort by
initial assets, rank with `method="first"`, `qcut` the ranks into four
equal-frequency bins, and return each bank's `rssdid` with its label. -/
def assign_ew_quartiles (df_initial : List InitRow) : List (Nat × String) :=
  let df_sorted := sortByAssets df_initial
  let ranks := rankFirst (df_sorted.map (fun r => r.initial_assets))
  let labels := qcut4 "Q1_small_ew" "Q2_ew" "Q3_ew" "Q4_large_ew" ranks
  (df_sorted.zip labels).map (fun p => (p.1.rssdid, p.2))

/-- `get_vw_quartile` of `create_aggregated_leverage.py`. -/
def get_vw_quartile (cum_share : ℚ) : String :=
  if cum_share ≤ 1/4 then "Q1_small_vw"
  else if cum_share ≤ 1/2 then "Q2_vw"
  else if cum_share ≤ 3/4 then "Q3_vw"
  else "Q4_large_vw"

/-- `assign_vw_quartiles` of `create_aggregated_leverage.py`: sort ascending
by initial assets, compute each bank's cumulative share of total assets, and
label it by the 25/50/75 percent thresholds. -/
def assign_vw_quartiles (df_initial : List InitRow) : List (Nat × String) :=
  let df_sorted := sortByAssets df_initial
  let total := (df_sorted.map (fun r => r.initial_assets)).sum
  df_sorted.enum.map (fun p =>
    (p.2.rssdid,
     get_vw_quartile
       (((df_sorted.take (p.1 + 1)).map (fun r => r.initial_assets)).sum / total)))

/-- The ascending position of a value-weight quartile label. -/
def vwIdx : String → Nat
  | "Q1_small_vw" => 0
  | "Q2_vw" => 1
  | "Q3_vw" => 2
  | _ => 3

/-! ## Sortedness facts shared by C8 and C9 -/

theorem sortByAssets_perm (df : List InitRow) : (sortByAssets df).Perm df :=
  List.mergeSort_perm df _

theorem sortByAssets_sorted (df : List InitRow) :
    List.Pairwise (fun a b : InitRow => a.initial_assets ≤ b.initial_assets)
      (sortByAssets df) := by
  have h : (sortByAssets df).Pairwise (fun a b : InitRow =>
      decide (a.initial_assets ≤ b.initial_assets) = true) := by
    apply List.sorted_mergeSort
    · intro a b c hab hbc
      simp only [decide_eq_true_eq] at hab hbc ⊢
      exact le_trans hab hbc
    · intro a b
      simp only [Bool.or_eq_true, decide_eq_true_eq]
      exact le_total a.initial_assets b.initial_assets
  exact h.imp (fun hab => by simpa using hab)

/-! ## C9 -/

theorem get_vw_quartile_mem (c : ℚ) :
    get_vw_quartile c ∈ ["Q1_small_vw", "Q2_vw", "Q3_vw", "Q4_large_vw"] := by
  unfold get_vw_quartile
  split_ifs <;> simp

theorem vwIdx_get_vw_quartile_mono (c c' : ℚ) (h : c ≤ c') :
    vwIdx (get_vw_quartile c) ≤ vwIdx (get_vw_quartile c') := by
  unfold get_vw_quartile
  split_ifs <;> first | decide | (exfalso; linarith)

/-- C9: on any input with strictly positive initial assets,
`assign_vw_quartiles` assigns each bank exactly one of the four labels, the
assigned label is monotone non-decreasing along the ascending sort by
`initial_assets`, and the bank with the largest initial assets is assigned
`Q4_large_vw` (its cumulative share equals 1, which exceeds 3/4). -/
theorem c9_vw_quartiles (df : List InitRow)
    (hpos : ∀ r ∈ df, 0 < r.initial_assets) (hne : df ≠ []) :
    ((assign_vw_quartiles df).map Prod.fst).Perm (df.map (fun r => r.rssdid)) ∧
    (∀ p ∈ assign_vw_quartiles df,
      p.2 ∈ ["Q1_small_vw", "Q2_vw", "Q3_vw", "Q4_large_vw"]) ∧
    List.Chain' (fun a b => vwIdx a.2 ≤ vwIdx b.2) (assign_vw_quartiles df) ∧
    (∃ b ∈ df, (∀ r ∈ df, r.initial_assets ≤ b.initial_assets) ∧
      (assign_vw_quartiles df).getLast? = some (b.rssdid, "Q4_large_vw")) := by
  have hperm := sortByAssets_perm df
  have hsorted := sortByAssets_sorted df
  have hsne : sortByAssets df ≠ [] := by
    intro h
    apply hne
    have hl := hperm.length_eq
    rw [h] at hl
    exact List.eq_nil_of_length_eq_zero hl.symm
  have hspos : ∀ r ∈ sortByAssets df, 0 < r.initial_assets :=
    fun r hr => hpos r (hperm.mem_iff.1 hr)
  have htot : 0 < ((sortByAssets df).map (fun r => r.initial_assets)).sum := by
    apply List.sum_pos
    · intro x hx
      rcases List.mem_map.1 hx with ⟨r, hr, rfl⟩
      exact hspos r hr
    · intro h
      exact hsne (List.map_eq_nil_iff.1 h)
  have hmapfst : (assign_vw_quartiles df).map Prod.fst =
      (sortByAssets df).map (fun r => r.rssdid) := by
    simp only [assign_vw_quartiles, List.map_map]
    conv_rhs => rw [← List.enum_map_snd (sortByAssets df), List.map_map]
    rfl
  refine ⟨?_, ?_, ?_, ?_⟩
  · rw [hmapfst]
    exact hperm.map (fun r => r.rssdid)
  · intro p hp
    simp only [assign_vw_quartiles, List.mem_map] at hp
    rcases hp with ⟨q, _, rfl⟩
    exact get_vw_quartile_mem _
  · rw [List.chain'_iff_get]
    intro i hi
    have hlen : (assign_vw_quartiles df).length = (sortByAssets df).length := by
      simp [assign_vw_quartiles]
    rw [hlen] at hi
    simp only [List.get_eq_getElem, assign_vw_quartiles, List.getElem_map,
      List.getElem_enum]
    apply vwIdx_get_vw_quartile_mono
    rw [div_le_div_iff_of_pos_right htot, List.map_take, List.map_take]
    have hi1 : i + 1 < ((sortByAssets df).map (fun r => r.initial_assets)).length := by
      rw [List.length_map]; omega
    rw [List.sum_take_succ _ (i + 1) hi1]
    have hxpos : 0 < ((sortByAssets df).map (fun r => r.initial_assets))[i + 1] := by
      rw [List.getElem_map]
      exact hspos _ (List.getElem_mem (by rw [List.length_map] at hi1; omega))
    linarith
  · have hn : 0 < (sortByAssets df).length := List.length_pos.2 hsne
    have hlt : (sortByAssets df).length - 1 < (sortByAssets df).length := by omega
    refine ⟨(sortByAssets df)[(sortByAssets df).length - 1], ?_, ?_, ?_⟩
    · exact hperm.mem_iff.1 (List.getElem_mem hlt)
    · intro r hr
      have hr2 : r ∈ sortByAssets df := hperm.mem_iff.2 hr
      rcases List.mem_iff_getElem.1 hr2 with ⟨j, hj, rfl⟩
      rcases Nat.lt_or_ge j ((sortByAssets df).length - 1) with hjlt | hjge
      · exact (List.pairwise_iff_getElem.1 hsorted) j _ hj hlt hjlt
      · have hje : j = (sortByAssets df).length - 1 := by omega
        subst hje
        exact le_refl _
    · have hlen2 : (assign_vw_quartiles df).length = (sortByAssets df).length := by
        simp [assign_vw_quartiles]
      have hlt2 : (assign_vw_quartiles df).length - 1 < (assign_vw_quartiles df).length := by
        omega
      rw [List.getLast?_eq_getElem?, List.getElem?_eq_getElem hlt2]
      simp only [assign_vw_quartiles, List.getElem_map, List.getElem_enum,
        List.length_map, List.enum_length]
      have hstep : (sortByAssets df).length - 1 + 1 = (sortByAssets df).length := by omega
      rw [hstep, List.take_length, div_self (ne_of_gt htot)]
      norm_num [get_vw_quartile]

/-! ## C8 helper lemmas -/

theorem countP_range_lt (c : Nat) : ∀ (n : Nat),
    (List.range n).countP (fun j => decide (j < c)) = min c n
  | 0 => by simp
  | n + 1 => by
    rw [List.range_succ, List.countP_append, countP_range_lt c n]
    by_cases h : n < c
    · simp only [List.countP_cons, List.countP_nil, decide_eq_true_eq, if_pos h]
      omega
    · simp only [List.countP_cons, List.countP_nil, decide_eq_true_eq, if_neg h]
      omega

theorem countP_split {α : Type} (l : List α) (p q : α → Bool)
    (himp : ∀ a ∈ l, p a = true → q a = true) :
    l.countP q = l.countP p + l.countP (fun a => q a && !p a) := by
  induction l with
  | nil => rfl
  | cons x xs ih =>
    rw [List.countP_cons, List.countP_cons, List.countP_cons,
      ih (fun a ha hp => himp a (List.mem_cons_of_mem _ ha) hp)]
    by_cases hp : p x = true
    · have hq := himp x (List.mem_cons_self _ _) hp
      simp [hp, hq]
      omega
    · have hp' : p x = false := by rwa [Bool.not_eq_true] at hp
      by_cases hq : q x = true
      · simp [hp', hq]
        omega
      · have hq' : q x = false := by rwa [Bool.not_eq_true] at hq
        simp [hp', hq']

theorem countP_add_not {α : Type} (l : List α) (p : α → Bool) :
    l.countP p + l.countP (fun a => !(p a)) = l.length := by
  induction l with
  | nil => rfl
  | cons x xs ih =>
    rw [List.countP_cons, List.countP_cons, List.length_cons]
    by_cases h : p x = true
    · simp [h]
      omega
    · have hx : p x = false := by rwa [Bool.not_eq_true] at h
      simp [hx]
      omega

theorem countP_lt_add_eq (x : ℚ) : ∀ (l : List ℚ), (∀ y ∈ l, y ≤ x) →
    l.countP (fun y => decide (y < x)) + l.countP (fun y => decide (y = x)) = l.length
  | [], _ => rfl
  | z :: zs, h => by
    have hz := h z (List.mem_cons_self _ _)
    have ih := countP_lt_add_eq x zs (fun y hy => h y (List.mem_cons_of_mem _ hy))
    rw [List.countP_cons, List.countP_cons, List.length_cons]
    rcases lt_or_eq_of_le hz with hlt | heq
    · simp [hlt, ne_of_lt hlt]
      omega
    · simp [heq, lt_irrefl]
      omega

theorem countP_lt_zero (x : ℚ) (l : List ℚ) (h : ∀ y ∈ l, x ≤ y) :
    l.countP (fun y => decide (y < x)) = 0 := by
  rw [List.countP_eq_zero]
  intro y hy
  simp only [decide_eq_true_eq]
  exact not_lt.2 (h y hy)

/-- On a list sorted ascending, `rank(method="first")` is exactly the
sequence `1, 2, …, n`. -/
theorem rankFirst_sorted (xs : List ℚ) (hs : List.Pairwise (· ≤ ·) xs) :
    rankFirst xs = (List.range xs.length).map (fun i => ((i + 1 : Nat) : ℚ)) := by
  apply List.ext_getElem
  · simp [rankFirst]
  · intro i hi1 hi2
    have hin : i < xs.length := by simpa [rankFirst] using hi1
    simp only [rankFirst, List.getElem_map, List.getElem_enum, List.getElem_range]
    have hd : ∀ y ∈ xs.drop i, xs[i] ≤ y := by
      intro y hy
      rcases List.mem_iff_getElem.1 hy with ⟨j, hj, rfl⟩
      rw [List.getElem_drop]
      rcases Nat.eq_zero_or_pos j with rfl | hjpos
      · exact le_of_eq (by congr 1)
      · exact (List.pairwise_iff_getElem.1 hs) i (i + j) hin
          (by rw [List.length_drop] at hj; omega) (by omega)
    have ht : ∀ y ∈ xs.take i, y ≤ xs[i] := by
      intro y hy
      rcases List.mem_iff_getElem.1 hy with ⟨j, hj, rfl⟩
      have hjlt : j < i := by
        rw [List.length_take] at hj; omega
      rw [List.getElem_take]
      exact (List.pairwise_iff_getElem.1 hs) j i (by omega) hin hjlt
    have hsplit : ∀ (P : ℚ → Bool),
        xs.countP P = (xs.take i).countP P + (xs.drop i).countP P := by
      intro P
      conv_lhs => rw [← List.take_append_drop i xs]
      exact List.countP_append _ _ _
    have hcc := countP_lt_add_eq xs[i] (xs.take i) ht
    rw [List.length_take] at hcc
    rw [hsplit, countP_lt_zero xs[i] (xs.drop i) hd]

    have : (xs.take i).countP (fun y => decide (y < xs[i])) +
        (xs.take i).countP (fun y => decide (y = xs[i])) = i := by omega
    norm_cast
    omega

/-- The ranks `1, …, n` are already ascending for the `qcut` comparator. -/
theorem ranks_pairwise (n : Nat) :
    List.Pairwise (fun a b : ℚ => decide (a ≤ b) = true)
      ((List.range n).map (fun i => ((i + 1 : Nat) : ℚ))) := by
  rw [List.pairwise_map]
  apply (List.pairwise_lt_range n).imp
  intro a b hab
  simp only [decide_eq_true_eq]
  exact_mod_cast Nat.succ_le_succ (le_of_lt hab)

/-- The interpolated quantile of the rank sequence `1, …, n`. -/
theorem quantileSorted_ranks (n : Nat) (hn : 2 ≤ n) (p : ℚ) (hp0 : 0 ≤ p)
    (hp1 : p < 1) :
    quantileSorted ((List.range n).map (fun i => ((i + 1 : Nat) : ℚ))) p
      = p * ((n : ℚ) - 1) + 1 := by
  have hlen : ((List.range n).map (fun i => ((i + 1 : Nat) : ℚ))).length = n := by
    simp
  simp only [quantileSorted, hlen]
  have hn1 : (0 : ℚ) < (n : ℚ) - 1 := by
    have : (2 : ℚ) ≤ (n : ℚ) := by exact_mod_cast hn
    linarith
  have hh0 : 0 ≤ p * ((n : ℚ) - 1) := mul_nonneg hp0 (le_of_lt hn1)
  have hh1 : p * ((n : ℚ) - 1) < (n : ℚ) - 1 := by
    calc p * ((n : ℚ) - 1) < 1 * ((n : ℚ) - 1) := by
          exact mul_lt_mul_of_pos_right hp1 hn1
      _ = (n : ℚ) - 1 := one_mul _
  have hfl0 : 0 ≤ ⌊p * ((n : ℚ) - 1)⌋ := Int.floor_nonneg.2 hh0
  have hfl1 : ⌊p * ((n : ℚ) - 1)⌋ < (n : ℤ) - 1 := by
    have := Int.floor_le_floor (le_of_lt hh1)
    have hfln : ⌊(n : ℚ) - 1⌋ = (n : ℤ) - 1 := by
      rw [show ((n : ℚ) - 1) = ((n : ℤ) - 1 : ℤ) by push_cast; ring, Int.floor_intCast]
    rcases lt_or_eq_of_le this with hlt | heqf
    · omega
    · exfalso
      have := Int.floor_le (p * ((n : ℚ) - 1))
      rw [heqf, hfln] at this
      have h2 : ((n : ℤ) - 1 : ℤ) ≤ (p * ((n : ℚ) - 1) : ℚ) := by exact_mod_cast this
      push_cast at h2
      linarith
  have hilt : ⌊p * ((n : ℚ) - 1)⌋.toNat < n - 1 := by omega
  have hi1 : ⌊p * ((n : ℚ) - 1)⌋.toNat < n := by omega
  have hi2 : ⌊p * ((n : ℚ) - 1)⌋.toNat + 1 < n := by omega
  rw [List.getD_eq_getElem _ _ (by simpa using hi1),
    List.getD_eq_getElem _ _ (by simpa using hi2)]
  simp only [List.getElem_map, List.getElem_range]
  push_cast
  ring

/-- Decoding label tests of the EW `qcut` into threshold tests. -/
theorem qcut4Label_beq (e1 e2 e3 : ℚ) (he12 : e1 ≤ e2) (he23 : e2 ≤ e3) (x : ℚ) :
    ((qcut4Label e1 e2 e3 "Q1_small_ew" "Q2_ew" "Q3_ew" "Q4_large_ew" x
        == "Q1_small_ew") = decide (x ≤ e1)) ∧
    ((qcut4Label e1 e2 e3 "Q1_small_ew" "Q2_ew" "Q3_ew" "Q4_large_ew" x
        == "Q2_ew") = (decide (x ≤ e2) && !decide (x ≤ e1))) ∧
    ((qcut4Label e1 e2 e3 "Q1_small_ew" "Q2_ew" "Q3_ew" "Q4_large_ew" x
        == "Q3_ew") = (decide (x ≤ e3) && !decide (x ≤ e2))) ∧
    ((qcut4Label e1 e2 e3 "Q1_small_ew" "Q2_ew" "Q3_ew" "Q4_large_ew" x
        == "Q4_large_ew") = !decide (x ≤ e3)) := by
  unfold qcut4Label
  split_ifs with h1 h2 h3
  · have h2 : x ≤ e2 := le_trans h1 he12
    have h3 : x ≤ e3 := le_trans h2 he23
    simp [h1, h2, h3]
  · have h3 : x ≤ e3 := le_trans h2 he23
    simp [h1, h2, h3]
  · simp [h1, h2, h3]
  · have h2' : ¬ x ≤ e2 := fun hc => h3 (le_trans hc he23)
    have h1' : ¬ x ≤ e1 := fun hc => h2' (le_trans hc he12)
    simp [h1', h2', h3]

theorem qcut4Label_mem (e1 e2 e3 : ℚ) (l1 l2 l3 l4 : String) (x : ℚ) :
    qcut4Label e1 e2 e3 l1 l2 l3 l4 x ∈ [l1, l2, l3, l4] := by
  unfold qcut4Label
  split_ifs <;> simp

theorem countP_zip_snd (pred : String → Bool) :
    ∀ (l1 : List InitRow) (l2 : List String), l1.length = l2.length →
      (l1.zip l2).countP (fun q => pred q.2) = l2.countP pred
  | [], [], _ => rfl
  | [], _ :: _, h => by simp at h
  | _ :: _, [], h => by simp at h
  | a :: as, b :: bs, h => by
    rw [List.zip_cons_cons, List.countP_cons, List.countP_cons,
      countP_zip_snd pred as bs (by simpa using h)]

/-- Relating a rank against an interpolated quartile edge to integer
arithmetic. -/
theorem rank_le_edge_iff (m j k : Nat) :
    (((j + 1 : Nat) : ℚ) ≤ ((k : Nat) : ℚ)/4 * ((m : Nat) : ℚ) + 1) ↔
      4 * j ≤ k * m := by
  constructor
  · intro h
    have h4 : (4 : ℚ) * (j : ℚ) ≤ (k : ℚ) * (m : ℚ) := by
      push_cast at h
      linarith
    exact_mod_cast h4
  · intro h
    have h4 : (4 : ℚ) * (j : ℚ) ≤ (k : ℚ) * (m : ℚ) := by exact_mod_cast h
    push_cast
    linarith

/-- C8: on any input with at least 4 rows and pairwise-distinct `rssdid`,
`assign_ew_quartiles` keeps every bank exactly once (the output ids are a
permutation of the input ids, still without duplicates), assigns each bank
one of the four labels `Q1_small_ew`, `Q2_ew`, `Q3_ew`, `Q4_large_ew`, and
the four resulting groups have sizes differing by at most one. -/
theorem c8_ew_quartiles (df : List InitRow)
    (hlen4 : 4 ≤ df.length)
    (hnodup : (df.map (fun r => r.rssdid)).Nodup) :
    (assign_ew_quartiles df).length = df.length ∧
    ((assign_ew_quartiles df).map Prod.fst).Perm (df.map (fun r => r.rssdid)) ∧
    ((assign_ew_quartiles df).map Prod.fst).Nodup ∧
    (∀ p ∈ assign_ew_quartiles df,
      p.2 ∈ ["Q1_small_ew", "Q2_ew", "Q3_ew", "Q4_large_ew"]) ∧
    (∀ l1 ∈ ["Q1_small_ew", "Q2_ew", "Q3_ew", "Q4_large_ew"],
      ∀ l2 ∈ ["Q1_small_ew", "Q2_ew", "Q3_ew", "Q4_large_ew"],
        (assign_ew_quartiles df).countP (fun p => p.2 == l1) ≤
          (assign_ew_quartiles df).countP (fun p => p.2 == l2) + 1) := by
  have hperm := sortByAssets_perm df
  have hsort := sortByAssets_sorted df
  have hN : (sortByAssets df).length = df.length := hperm.length_eq
  have hN4 : 4 ≤ (sortByAssets df).length := by omega
  have hN2 : 2 ≤ (sortByAssets df).length := by omega
  have hxs_sorted :
      List.Pairwise (· ≤ ·) ((sortByAssets df).map (fun r => r.initial_assets)) := by
    rw [List.pairwise_map]
    exact hsort
  have hxslen : ((sortByAssets df).map (fun r => r.initial_assets)).length =
      (sortByAssets df).length := List.length_map _ _
  have hrank : rankFirst ((sortByAssets df).map (fun r => r.initial_assets)) =
      (List.range (sortByAssets df).length).map (fun i => ((i + 1 : Nat) : ℚ)) := by
    rw [rankFirst_sorted _ hxs_sorted, hxslen]
  have hms : (rankFirst ((sortByAssets df).map (fun r => r.initial_assets))).mergeSort
        (fun a b => decide (a ≤ b)) =
      (List.range (sortByAssets df).length).map (fun i => ((i + 1 : Nat) : ℚ)) := by
    rw [hrank]
    exact List.mergeSort_of_sorted (ranks_pairwise _)
  have hm : (((sortByAssets df).length : ℚ) - 1) =
      (((sortByAssets df).length - 1 : Nat) : ℚ) := by
    have h1 : 1 ≤ (sortByAssets df).length := by omega
    rw [Nat.cast_sub h1, Nat.cast_one]
  have he1 : quantileSorted
        ((List.range (sortByAssets df).length).map (fun i => ((i + 1 : Nat) : ℚ))) (1/4)
      = ((1 : Nat) : ℚ)/4 * (((sortByAssets df).length - 1 : Nat) : ℚ) + 1 := by
    rw [quantileSorted_ranks _ hN2 (1/4) (by norm_num) (by norm_num), hm]
    norm_num
  have he2 : quantileSorted
        ((List.range (sortByAssets df).length).map (fun i => ((i + 1 : Nat) : ℚ))) (1/2)
      = ((2 : Nat) : ℚ)/4 * (((sortByAssets df).length - 1 : Nat) : ℚ) + 1 := by
    rw [quantileSorted_ranks _ hN2 (1/2) (by norm_num) (by norm_num), hm]
    norm_num
  have he3 : quantileSorted
        ((List.range (sortByAssets df).length).map (fun i => ((i + 1 : Nat) : ℚ))) (3/4)
      = ((3 : Nat) : ℚ)/4 * (((sortByAssets df).length - 1 : Nat) : ℚ) + 1 := by
    rw [quantileSorted_ranks _ hN2 (3/4) (by norm_num) (by norm_num), hm]
    norm_num
  have hlab : qcut4 "Q1_small_ew" "Q2_ew" "Q3_ew" "Q4_large_ew"
        (rankFirst ((sortByAssets df).map (fun r => r.initial_assets))) =
      ((List.range (sortByAssets df).length).map (fun i => ((i + 1 : Nat) : ℚ))).map
        (qcut4Label
          (((1 : Nat) : ℚ)/4 * (((sortByAssets df).length - 1 : Nat) : ℚ) + 1)
          (((2 : Nat) : ℚ)/4 * (((sortByAssets df).length - 1 : Nat) : ℚ) + 1)
          (((3 : Nat) : ℚ)/4 * (((sortByAssets df).length - 1 : Nat) : ℚ) + 1)
          "Q1_small_ew" "Q2_ew" "Q3_ew" "Q4_large_ew") := by
    simp only [qcut4]
    rw [hms, he1, he2, he3, hrank]
  have hlab_len : (qcut4 "Q1_small_ew" "Q2_ew" "Q3_ew" "Q4_large_ew"
        (rankFirst ((sortByAssets df).map (fun r => r.initial_assets)))).length =
      (sortByAssets df).length := by
    rw [hlab, List.length_map, List.length_map, List.length_range]
  have hout : assign_ew_quartiles df =
      ((sortByAssets df).zip (qcut4 "Q1_small_ew" "Q2_ew" "Q3_ew" "Q4_large_ew"
        (rankFirst ((sortByAssets df).map (fun r => r.initial_assets))))).map
        (fun p => (p.1.rssdid, p.2)) := by
    simp only [assign_ew_quartiles]
  have hout_len : (assign_ew_quartiles df).length = df.length := by
    rw [hout, List.length_map, List.length_zip, hlab_len, Nat.min_self, hN]
  have hmapfst : (assign_ew_quartiles df).map Prod.fst =
      (sortByAssets df).map (fun r => r.rssdid) := by
    rw [hout, List.map_map]
    have hc : (Prod.fst ∘ fun p : InitRow × String => (p.1.rssdid, p.2)) =
        ((fun r : InitRow => r.rssdid) ∘ Prod.fst) := rfl
    rw [hc, ← List.map_map, List.map_fst_zip _ _ (le_of_eq hlab_len.symm)]
  have hcount : ∀ Lb : String,
      (assign_ew_quartiles df).countP (fun p => p.2 == Lb) =
        (List.range (sortByAssets df).length).countP (fun j =>
          qcut4Label
            (((1 : Nat) : ℚ)/4 * (((sortByAssets df).length - 1 : Nat) : ℚ) + 1)
            (((2 : Nat) : ℚ)/4 * (((sortByAssets df).length - 1 : Nat) : ℚ) + 1)
            (((3 : Nat) : ℚ)/4 * (((sortByAssets df).length - 1 : Nat) : ℚ) + 1)
            "Q1_small_ew" "Q2_ew" "Q3_ew" "Q4_large_ew" ((j + 1 : Nat) : ℚ) == Lb) := by
    intro Lb
    rw [hout, List.countP_map]
    have hzip : (((sortByAssets df).zip
          (qcut4 "Q1_small_ew" "Q2_ew" "Q3_ew" "Q4_large_ew"
            (rankFirst ((sortByAssets df).map (fun r => r.initial_assets))))).countP
        ((fun p : Nat × String => p.2 == Lb) ∘ fun p => (p.1.rssdid, p.2))) =
        (((sortByAssets df).zip
          (qcut4 "Q1_small_ew" "Q2_ew" "Q3_ew" "Q4_large_ew"
            (rankFirst ((sortByAssets df).map (fun r => r.initial_assets))))).countP
        (fun q => q.2 == Lb)) := List.countP_congr (fun x _ => Iff.rfl)
    rw [hzip, countP_zip_snd (fun lab => lab == Lb) _ _ hlab_len.symm, hlab,
      List.countP_map, List.countP_map]
    exact List.countP_congr (fun j _ => Iff.rfl)
  have hble : ∀ (k j : Nat),
      decide (((j + 1 : Nat) : ℚ) ≤
          ((k : Nat) : ℚ)/4 * (((sortByAssets df).length - 1 : Nat) : ℚ) + 1) =
        decide (4 * j ≤ k * ((sortByAssets df).length - 1)) := by
    intro k j
    rw [decide_eq_decide]
    exact rank_le_edge_iff ((sortByAssets df).length - 1) j k
  have hedge12 :
      ((1 : Nat) : ℚ)/4 * (((sortByAssets df).length - 1 : Nat) : ℚ) + 1 ≤
        ((2 : Nat) : ℚ)/4 * (((sortByAssets df).length - 1 : Nat) : ℚ) + 1 := by
    have h0 : (0 : ℚ) ≤ (((sortByAssets df).length - 1 : Nat) : ℚ) := Nat.cast_nonneg _
    push_cast
    linarith
  have hedge23 :
      ((2 : Nat) : ℚ)/4 * (((sortByAssets df).length - 1 : Nat) : ℚ) + 1 ≤
        ((3 : Nat) : ℚ)/4 * (((sortByAssets df).length - 1 : Nat) : ℚ) + 1 := by
    have h0 : (0 : ℚ) ≤ (((sortByAssets df).length - 1 : Nat) : ℚ) := Nat.cast_nonneg _
    push_cast
    linarith
  -- counts of the four labels over the rank positions
  have hq1 : (assign_ew_quartiles df).countP (fun p => p.2 == "Q1_small_ew") =
      (List.range (sortByAssets df).length).countP
        (fun j => decide (4 * j ≤ 1 * ((sortByAssets df).length - 1))) := by
    rw [hcount "Q1_small_ew"]
    apply List.countP_congr
    intro j _
    rw [(qcut4Label_beq _ _ _ hedge12 hedge23 _).1, hble 1 j]
  have hq2 : (assign_ew_quartiles df).countP (fun p => p.2 == "Q2_ew") =
      (List.range (sortByAssets df).length).countP
        (fun j => decide (4 * j ≤ 2 * ((sortByAssets df).length - 1)) &&
          !decide (4 * j ≤ 1 * ((sortByAssets df).length - 1))) := by
    rw [hcount "Q2_ew"]
    apply List.countP_congr
    intro j _
    rw [(qcut4Label_beq _ _ _ hedge12 hedge23 _).2.1, hble 2 j, hble 1 j]
  have hq3 : (assign_ew_quartiles df).countP (fun p => p.2 == "Q3_ew") =
      (List.range (sortByAssets df).length).countP
        (fun j => decide (4 * j ≤ 3 * ((sortByAssets df).length - 1)) &&
          !decide (4 * j ≤ 2 * ((sortByAssets df).length - 1))) := by
    rw [hcount "Q3_ew"]
    apply List.countP_congr
    intro j _
    rw [(qcut4Label_beq _ _ _ hedge12 hedge23 _).2.2.1, hble 3 j, hble 2 j]
  have hq4 : (assign_ew_quartiles df).countP (fun p => p.2 == "Q4_large_ew") =
      (List.range (sortByAssets df).length).countP
        (fun j => !decide (4 * j ≤ 3 * ((sortByAssets df).length - 1))) := by
    rw [hcount "Q4_large_ew"]
    apply List.countP_congr
    intro j _
    rw [(qcut4Label_beq _ _ _ hedge12 hedge23 _).2.2.2, hble 3 j]
  -- closed forms of the cumulative counts
  have hA : ∀ k : Nat, (List.range (sortByAssets df).length).countP
        (fun j => decide (4 * j ≤ k * ((sortByAssets df).length - 1))) =
      min (k * ((sortByAssets df).length - 1) / 4 + 1) (sortByAssets df).length := by
    intro k
    have hcg := List.countP_congr (l := List.range (sortByAssets df).length)
      (p := fun j => decide (4 * j ≤ k * ((sortByAssets df).length - 1)))
      (q := fun j => decide (j < k * ((sortByAssets df).length - 1) / 4 + 1))
      (fun j _ => by simp only [decide_eq_true_eq]; omega)
    rw [hcg, countP_range_lt]
  have hsplit2 := countP_split (List.range (sortByAssets df).length)
    (fun j => decide (4 * j ≤ 1 * ((sortByAssets df).length - 1)))
    (fun j => decide (4 * j ≤ 2 * ((sortByAssets df).length - 1)))
    (fun j _ hj => by
      simp only [decide_eq_true_eq] at hj ⊢
      omega)
  have hsplit3 := countP_split (List.range (sortByAssets df).length)
    (fun j => decide (4 * j ≤ 2 * ((sortByAssets df).length - 1)))
    (fun j => decide (4 * j ≤ 3 * ((sortByAssets df).length - 1)))
    (fun j _ hj => by
      simp only [decide_eq_true_eq] at hj ⊢
      omega)
  refine ⟨hout_len, ?_, ?_, ?_, ?_⟩
  · rw [hmapfst]
    exact hperm.map (fun r => r.rssdid)
  · rw [hmapfst]
    exact ((hperm.map (fun r => r.rssdid)).nodup_iff).2 hnodup
  · intro p hp
    rw [hout] at hp
    rcases List.mem_map.1 hp with ⟨q, hq, rfl⟩
    have hqz := (List.of_mem_zip hq).2
    rw [hlab] at hqz
    rcases List.mem_map.1 hqz with ⟨x, _, hx⟩
    show q.2 ∈ ["Q1_small_ew", "Q2_ew", "Q3_ew", "Q4_large_ew"]
    rw [← hx]
    exact qcut4Label_mem _ _ _ _ _ _ _ _
  · intro l1 hl1 l2 hl2
    have e1 : (assign_ew_quartiles df).countP (fun p => p.2 == "Q1_small_ew") =
        min (1 * ((sortByAssets df).length - 1) / 4 + 1) (sortByAssets df).length := by
      rw [hq1, hA 1]
    have e2 : min (2 * ((sortByAssets df).length - 1) / 4 + 1) (sortByAssets df).length =
        min (1 * ((sortByAssets df).length - 1) / 4 + 1) (sortByAssets df).length +
          (assign_ew_quartiles df).countP (fun p => p.2 == "Q2_ew") := by
      rw [hq2, ← hA 1, ← hA 2]
      exact hsplit2
    have e3 : min (3 * ((sortByAssets df).length - 1) / 4 + 1) (sortByAssets df).length =
        min (2 * ((sortByAssets df).length - 1) / 4 + 1) (sortByAssets df).length +
          (assign_ew_quartiles df).countP (fun p => p.2 == "Q3_ew") := by
      rw [hq3, ← hA 2, ← hA 3]
      exact hsplit3
    have e4 : (sortByAssets df).length =
        min (3 * ((sortByAssets df).length - 1) / 4 + 1) (sortByAssets df).length +
          (assign_ew_quartiles df).countP (fun p => p.2 == "Q4_large_ew") := by
      rw [hq4, ← hA 3]
      have hnot := countP_add_not (List.range (sortByAssets df).length)
        (fun j => decide (4 * j ≤ 3 * ((sortByAssets df).length - 1)))
      rw [List.length_range] at hnot
      omega
    simp only [List.mem_cons, List.mem_singleton, List.not_mem_nil, or_false] at hl1 hl2
    rcases hl1 with rfl | rfl | rfl | rfl <;> rcases hl2 with rfl | rfl | rfl | rfl <;>
      omega

/-- Witness for C8 at a concrete input: four banks with distinct ids get one
label each. -/
theorem c8_witness :
    (assign_ew_quartiles
        [InitRow.mk 1 10, InitRow.mk 2 20, InitRow.mk 3 30, InitRow.mk 4 40]).length =
      ([InitRow.mk 1 10, InitRow.mk 2 20, InitRow.mk 3 30, InitRow.mk 4 40] :
        List InitRow).length :=
  (c8_ew_quartiles [InitRow.mk 1 10, InitRow.mk 2 20, InitRow.mk 3 30, InitRow.mk 4 40]
    (by decide) (by decide)).1

/-- Witness for C9 at a concrete input: two banks with positive assets. -/
theorem c9_witness :
    ((assign_vw_quartiles [InitRow.mk 1 1, InitRow.mk 2 2]).map Prod.fst).Perm
      (([InitRow.mk 1 1, InitRow.mk 2 2] : List InitRow).map (fun r => r.rssdid)) :=
  (c9_vw_quartiles [InitRow.mk 1 1, InitRow.mk 2 2]
    (by
      intro r hr
      simp only [List.mem_cons, List.not_mem_nil, or_false] at hr
      rcases hr with rfl | rfl <;> norm_num)
    (by simp)).1

/-- One observation of the raw call-report table. -/
structure Obs where
  rssdid : Nat
  date : Nat
  assets : ℚ
  equity : ℚ
deriving DecidableEq

/-- One row of `df_leverage`. -/
structure LevRow where
  rssdid : Nat
  date : Nat
  leverage : ℚ
  assets : ℚ
deriving DecidableEq

/-- One row of the aggregated output datasets. -/
structure AggRow where
  unique_id : String
  ds : Nat
  y : ℚ
deriving DecidableEq

/-- `df_clean.sort_values("date").groupby("rssdid").first()`, projected to
initial assets: for each distinct `rssdid` in ascending order (pandas sorts
group keys), the assets of its first date-sorted observation. -/
def initialAssets (clean : List Obs) : List InitRow :=
  let byDate := clean.mergeSort (fun a b => decide (a.date ≤ b.date))
  let keys := ((clean.map (fun o => o.rssdid)).dedup).mergeSort (fun a b => decide (a ≤ b))
  keys.map (fun k =>
    match byDate.find? (fun o => o.rssdid == k) with
    | some o => { rssdid := k, initial_assets := o.assets }
    | none => { rssdid := k, initial_assets := 0 })

/-- `df_leverage.merge(quartiles, on="rssdid")`: inner join on `rssdid`. -/
def mergeQuartiles (lev : List LevRow) (q : List (Nat × String)) :
    List (LevRow × String) :=
  lev.flatMap (fun r => (q.filter (fun p => p.1 == r.rssdid)).map (fun p => (r, p.2)))

/-- The distinct `(date, quartile)` group keys of `groupby(["date", "quartile"])`. -/
def groupKeys (rows : List (LevRow × String)) : List (Nat × String) :=
  (rows.map (fun r => (r.1.date, r.2))).dedup

/-- The rows of one `(date, quartile)` group. -/
def groupRows (rows : List (LevRow × String)) (k : Nat × String) :
    List (LevRow × String) :=
  rows.filter (fun r => (r.1.date, r.2) == k)

/-- The column mean, as the `"mean"` aggregation computes it. -/
def listMean (xs : List ℚ) : ℚ := xs.sum / xs.length

/-- `np.average(values, weights)`: the weighted mean used by `weighted_mean`
of `create_aggregated_leverage.py`. -/
def npAverage (xw : List (ℚ × ℚ)) : ℚ :=
  (xw.map (fun p => p.1 * p.2)).sum / (xw.map (fun p => p.2)).sum

/-- The final `sort_values(["unique_id", "ds"])`. -/
def sortAgg (rows : List AggRow) : List AggRow :=
  rows.mergeSort (fun a b => decide (a.unique_id < b.unique_id) ||
    (a.unique_id == b.unique_id && decide (a.ds ≤ b.ds)))

/-- `df_clean` of `create_aggregated_leverage.py`: keep rows with
`equity > 1e-10` and `assets > 0`. -/
def cleanObs (df_all : List Obs) : List Obs :=
  df_all.filter (fun o =>
    decide ((1 : ℚ)/10000000000 < o.equity) && decide (0 < o.assets))

/-- `df_leverage`: the cleaned rows with `leverage = assets / equity`.  Over
exact rationals the `dropna` and infinite-value drops of the source remove
nothing, since division is total and never yields NaN or infinity. -/
def leverageRows (df_all : List Obs) : List LevRow :=
  (cleanObs df_all).map (fun o =>
    { rssdid := o.rssdid, date := o.date, leverage := o.assets / o.equity,
      assets := o.assets })

/-- `df_ew = df_leverage.merge(ew_quartiles, on="rssdid")`. -/
def dfEW (df_all : List Obs) : List (LevRow × String) :=
  mergeQuartiles (leverageRows df_all)
    (assign_ew_quartiles (initialAssets (cleanObs df_all)))

/-- `df_vw = df_leverage.merge(vw_quartiles, on="rssdid")`. -/
def dfVW (df_all : List Obs) : List (LevRow × String) :=
  mergeQuartiles (leverageRows df_all)
    (assign_vw_quartiles (initialAssets (cleanObs df_all)))

/-- `df_ew_agg` before the final sort: equal-weight mean leverage per
`(date, quartile)` group. -/
def ewAgg (df_all : List Obs) : List AggRow :=
  (groupKeys (dfEW df_all)).map (fun k =>
    { unique_id := k.2, ds := k.1,
      y := listMean ((groupRows (dfEW df_all) k).map (fun r => r.1.leverage)) })

/-- `df_vw_agg` before the final sort: asset-weighted mean leverage per
`(date, quartile)` group. -/
def vwAgg (df_all : List Obs) : List AggRow :=
  (groupKeys (dfVW df_all)).map (fun k =>
    { unique_id := k.2, ds := k.1,
      y := npAverage ((groupRows (dfVW df_all) k).map (fun r =>
        (r.1.leverage, r.1.assets))) })

/-- `create_aggregated_leverage` of `create_aggregated_leverage.py`, pure
core: the EW and VW aggregated datasets, each finally sorted by
`(unique_id, ds)`. -/
def create_aggregated_leverage (df_all : List Obs) : List AggRow × List AggRow :=
  (sortAgg (ewAgg df_all), sortAgg (vwAgg df_all))

/-! ## C10 -/

theorem listMean_pos (xs : List ℚ) (hne : xs ≠ []) (hpos : ∀ x ∈ xs, 0 < x) :
    0 < listMean xs := by
  unfold listMean
  apply div_pos (List.sum_pos xs hpos hne)
  exact_mod_cast List.length_pos.2 hne

theorem npAverage_pos (xw : List (ℚ × ℚ)) (hne : xw ≠ [])
    (hpos : ∀ p ∈ xw, 0 < p.1 ∧ 0 < p.2) : 0 < npAverage xw := by
  unfold npAverage
  apply div_pos
  · apply List.sum_pos
    · intro a ha
      rcases List.mem_map.1 ha with ⟨p, hp, rfl⟩
      exact mul_pos (hpos p hp).1 (hpos p hp).2
    · intro h
      exact hne (List.map_eq_nil_iff.1 h)
  · apply List.sum_pos
    · intro a ha
      rcases List.mem_map.1 ha with ⟨p, hp, rfl⟩
      exact (hpos p hp).2
    · intro h
      exact hne (List.map_eq_nil_iff.1 h)

theorem groupRows_ne_nil (rows : List (LevRow × String)) (k : Nat × String)
    (hk : k ∈ groupKeys rows) : groupRows rows k ≠ [] := by
  unfold groupKeys at hk
  rcases List.mem_map.1 (List.mem_dedup.1 hk) with ⟨r, hr, hkey⟩
  intro hnil
  have hmem : r ∈ groupRows rows k := by
    unfold groupRows
    refine List.mem_filter.2 ⟨hr, ?_⟩
    rw [hkey]
    exact beq_self_eq_true k
  rw [hnil] at hmem
  exact absurd hmem (List.not_mem_nil r)

theorem mem_mergeQuartiles (lev : List LevRow) (q : List (Nat × String))
    (r : LevRow × String) (h : r ∈ mergeQuartiles lev q) : r.1 ∈ lev := by
  unfold mergeQuartiles at h
  rcases List.mem_flatMap.1 h with ⟨x, hx, hr⟩
  rcases List.mem_map.1 hr with ⟨p, _, hpr⟩
  rw [← hpr]
  exact hx

theorem leverageRows_pos (df_all : List Obs) (r : LevRow)
    (h : r ∈ leverageRows df_all) : 0 < r.leverage ∧ 0 < r.assets := by
  unfold leverageRows at h
  rcases List.mem_map.1 h with ⟨o, ho, rfl⟩
  have hp := List.of_mem_filter ho
  simp only [Bool.and_eq_true, decide_eq_true_eq] at hp
  have heq : (0 : ℚ) < o.equity := lt_trans (by norm_num) hp.1
  exact ⟨div_pos hp.2 heq, hp.2⟩

/-- C10: every `y` value of both output datasets of
`create_aggregated_leverage` is strictly positive (and, being a rational,
finite): leverage is only computed on rows with `equity > 1e-10` and
`assets > 0`, and both the per-group mean and the asset-weighted mean of
positive values over a nonempty group are positive, the weighted mean
dividing by a strictly positive sum of weights. -/
theorem c10_y_positive (df_all : List Obs) :
    (∀ row ∈ (create_aggregated_leverage df_all).1, 0 < row.y) ∧
    (∀ row ∈ (create_aggregated_leverage df_all).2, 0 < row.y) := by
  constructor
  · intro row hrow
    have hrow' : row ∈ ewAgg df_all := by
      have := hrow
      unfold create_aggregated_leverage sortAgg at this
      exact List.mem_mergeSort.1 this
    unfold ewAgg at hrow'
    rcases List.mem_map.1 hrow' with ⟨k, hk, rfl⟩
    apply listMean_pos
    · intro h
      exact groupRows_ne_nil (dfEW df_all) k hk (List.map_eq_nil_iff.1 h)
    · intro x hx
      rcases List.mem_map.1 hx with ⟨r, hr, rfl⟩
      have hlev : r.1 ∈ leverageRows df_all :=
        mem_mergeQuartiles _ _ r (List.mem_of_mem_filter hr)
      exact (leverageRows_pos df_all r.1 hlev).1
  · intro row hrow
    have hrow' : row ∈ vwAgg df_all := by
      have := hrow
      unfold create_aggregated_leverage sortAgg at this
      exact List.mem_mergeSort.1 this
    unfold vwAgg at hrow'
    rcases List.mem_map.1 hrow' with ⟨k, hk, rfl⟩
    apply npAverage_pos
    · intro h
      exact groupRows_ne_nil (dfVW df_all) k hk (List.map_eq_nil_iff.1 h)
    · intro p hp
      rcases List.mem_map.1 hp with ⟨r, hr, rfl⟩
      have hlev : r.1 ∈ leverageRows df_all :=
        mem_mergeQuartiles _ _ r (List.mem_of_mem_filter hr)
      exact leverageRows_pos df_all r.1 hlev

/-- Witness for C10 at a concrete input: one bank with assets 4 and equity 2
yields leverage 2 in both datasets, and 2 is positive. -/
theorem c10_witness :
    (0 : ℚ) < (AggRow.mk "Q1_small_ew" 0 2).y ∧
    (0 : ℚ) < (AggRow.mk "Q4_large_vw" 0 2).y :=
  ⟨(c10_y_positive [Obs.mk 1 0 4 2]).1 (AggRow.mk "Q1_small_ew" 0 2) (by
      norm_num [create_aggregated_leverage, sortAgg, ewAgg, dfEW, mergeQuartiles,
        leverageRows, cleanObs, initialAssets, assign_ew_quartiles, sortByAssets,
        rankFirst, qcut4, quantileSorted, qcut4Label, groupKeys, groupRows, listMean,
        List.mergeSort, List.filter, List.enum, List.enumFrom, List.countP,
        List.countP.go, List.dedup, List.find?]),
   (c10_y_positive [Obs.mk 1 0 4 2]).2 (AggRow.mk "Q4_large_vw" 0 2) (by
      norm_num [create_aggregated_leverage, sortAgg, vwAgg, dfVW, mergeQuartiles,
        leverageRows, cleanObs, initialAssets, assign_vw_quartiles, sortByAssets,
        get_vw_quartile, groupKeys, groupRows, npAverage,
        List.mergeSort, List.filter, List.enum, List.enumFrom,
        List.dedup, List.find?])⟩

end NyuCallReport
